import Mathlib

/-!
A shallow embedding of the spike-detection backtest engine of this
repository: the functions `detectPriceSpikes` and `executeTrade` of the
backtest script, and the detection condition shared with the live
monitor (`s_i1.ts`).  Prices, balances and profits are modelled as
rationals; the JavaScript number type is IEEE double, but every claim
under study is an exact algebraic statement, and all concrete inputs
used below are exactly representable.

The month key `new Date(ts).toISOString().slice(0, 7)` is abstracted as
a parameter `monthOf : ℤ → M` mapping a timestamp to its calendar-month
bucket; no claim depends on the calendar arithmetic itself, only on
which candle's timestamp is used.

The ledger additionally carries a `profits` log, one signed entry per
recorded trade, mirroring the per-trade log-event stream the script
prints; it is pure observability and feeds no computation.
-/

namespace SpikeBacktest

/-- One OHLCV candle (the source's `OHLCV` interface).  The `open` field
is renamed `openPrice` because `open` is a Lean keyword. -/
structure OHLCV where
  timestamp : ℤ
  openPrice : ℚ
  high : ℚ
  low : ℚ
  close : ℚ
  volume : ℚ
deriving DecidableEq

instance : Inhabited OHLCV :=
  ⟨⟨0, 0, 0, 0, 0, 0⟩⟩

/-- Which branch of `executeTrade` resolved the trade: the take-profit
branch, the stop-loss branch, or the end-of-data force close. -/
inductive ExitKind where
  | targetHit
  | stopHit
  | forceClosed
deriving DecidableEq

/-- The relative close-to-close change used by the detector:
`(data[i].close - data[i-1].close) / data[i-1].close`
(source lines 53–55). -/
def changeAt (data : List OHLCV) (i : ℕ) : ℚ :=
  ((data.getD i default).close - (data.getD (i - 1) default).close) /
    (data.getD (i - 1) default).close

/-- The spike-detection decision on one consecutive pair of closes
(source lines 55–58, identically lines 101–104 of `s_i1.ts`):
`some isShort` when `|change| > threshold`, `none` otherwise, with
`isShort = (change > 0)`. -/
def detectSignal (threshold previousPrice currentPrice : ℚ) : Option Bool :=
  let change := (currentPrice - previousPrice) / previousPrice
  if |change| > threshold then some (decide (change > 0)) else none

/-- `executeTrade`'s take-profit price (source line 85):
`isShort ? entryPrice - (change/2)*entryPrice : entryPrice + (change/2)*entryPrice`,
where `change` is already the absolute magnitude. -/
def targetPrice (isShort : Bool) (entryPrice chg : ℚ) : ℚ :=
  if isShort then entryPrice - chg / 2 * entryPrice
  else entryPrice + chg / 2 * entryPrice

/-- `executeTrade`'s stop-loss price (source line 86):
`isShort ? entryPrice + change*entryPrice : entryPrice - change*entryPrice`. -/
def stopLossPrice (isShort : Bool) (entryPrice chg : ℚ) : ℚ :=
  if isShort then entryPrice + chg * entryPrice
  else entryPrice - chg * entryPrice

/-- Outcome of the forward scan when some candle resolves the trade:
the signed profit, the branch taken and the exit candle's timestamp. -/
structure ScanExit where
  profit : ℚ
  kind : ExitKind
  ts : ℤ
deriving DecidableEq

/-- The forward scan of `executeTrade` (source lines 91–120) over the
candles after the open.  The touch price is `low` for a short and
`high` for a long; the two take-profit branches are tested first, then
the stop-loss branch; the first candle on which a branch fires stops
the scan.  The stop-loss branch computes the loss as an absolute value,
subtracts it from the balance, and returns the profit negated
(lines 112–117), which the `ScanExit` records as the signed profit. -/
def tradeScan (isShort : Bool) (entryPrice tp sl currentBalance : ℚ) :
    List OHLCV → Option ScanExit
  | [] => none
  | c :: rest =>
    let currentPrice := if isShort then c.low else c.high
    if isShort = true ∧ currentPrice ≤ tp then
      some ⟨(entryPrice - currentPrice) / entryPrice * currentBalance,
        ExitKind.targetHit, c.timestamp⟩
    else if isShort = false ∧ currentPrice ≥ tp then
      some ⟨(currentPrice - entryPrice) / entryPrice * currentBalance,
        ExitKind.targetHit, c.timestamp⟩
    else if (isShort = true ∧ currentPrice ≥ sl) ∨ (isShort = false ∧ currentPrice ≤ sl) then
      some ⟨-|(currentPrice - entryPrice) / entryPrice * currentBalance|,
        ExitKind.stopHit, c.timestamp⟩
    else
      tradeScan isShort entryPrice tp sl currentBalance rest

/-- What `executeTrade` returns, together with the updated monthly
aggregate (mutated in place in the source), the resolving branch and
the exit timestamp (observability of the source's log line). -/
structure TradeResult (M : Type) where
  balance : ℚ
  profit : ℚ
  monthlyProfit : M → ℚ
  kind : ExitKind
  exitTs : ℤ

/-- `executeTrade` (source lines 82–133).  Entry at `data[index].close`;
`change` is replaced by its absolute value (line 84); target and stop
per `targetPrice`/`stopLossPrice`; the scan runs over the candles after
`index`; if no candle fires a branch the position is force-closed at
the last candle's close (lines 122–130).  In every branch the returned
balance is the input balance plus the signed profit, and the signed
profit is added to `monthlyProfit` at the exit candle's month. -/
def executeTrade {M : Type} [DecidableEq M] (monthOf : ℤ → M) (data : List OHLCV)
    (index : ℕ) (chg : ℚ) (isShort : Bool) (currentBalance : ℚ)
    (monthlyProfit : M → ℚ) : TradeResult M :=
  let entryPrice := (data.getD index default).close
  let chg := |chg|
  let tp := targetPrice isShort entryPrice chg
  let sl := stopLossPrice isShort entryPrice chg
  match tradeScan isShort entryPrice tp sl currentBalance (data.drop (index + 1)) with
  | some e =>
    { balance := currentBalance + e.profit
      profit := e.profit
      monthlyProfit := fun m =>
        if m = monthOf e.ts then monthlyProfit m + e.profit else monthlyProfit m
      kind := e.kind
      exitTs := e.ts }
  | none =>
    let lastCandle := data.getLastD default
    let lastChange := (lastCandle.close - entryPrice) / entryPrice * currentBalance
    let profit := if isShort then -lastChange else lastChange
    { balance := currentBalance + profit
      profit := profit
      monthlyProfit := fun m =>
        if m = monthOf lastCandle.timestamp then monthlyProfit m + profit
        else monthlyProfit m
      kind := ExitKind.forceClosed
      exitTs := lastCandle.timestamp }

/-- The mutable run state of `detectPriceSpikes` (source lines 46–50),
plus the `profits` log of recorded signed trade profits (the per-trade
log-event stream; observability only). -/
structure Ledger (M : Type) where
  currentBalance : ℚ
  totalTrades : ℕ
  winningTrades : ℕ
  losingTrades : ℕ
  monthlyProfit : M → ℚ
  profits : List ℚ

/-- The initial ledger: configured initial balance, zero counters, an
empty monthly aggregate and an empty trade log. -/
def initialLedger {M : Type} (initialBalance : ℚ) : Ledger M :=
  { currentBalance := initialBalance
    totalTrades := 0
    winningTrades := 0
    losingTrades := 0
    monthlyProfit := fun _ => 0
    profits := [] }

/-- One iteration of the loop of `detectPriceSpikes` (source
lines 52–68) at index `i`: compute the relative change; on
`|change| > threshold`, run `executeTrade` with the current balance,
adopt the returned balance, bump `totalTrades`, and bump
`winningTrades` when `profit > 0`, else `losingTrades`. -/
def stepSpike {M : Type} [DecidableEq M] (monthOf : ℤ → M) (threshold : ℚ)
    (data : List OHLCV) (st : Ledger M) (i : ℕ) : Ledger M :=
  let change := changeAt data i
  if |change| > threshold then
    let isShort := decide (change > 0)
    let result := executeTrade monthOf data i change isShort st.currentBalance st.monthlyProfit
    { currentBalance := result.balance
      totalTrades := st.totalTrades + 1
      winningTrades := if result.profit > 0 then st.winningTrades + 1 else st.winningTrades
      losingTrades := if result.profit > 0 then st.losingTrades else st.losingTrades + 1
      monthlyProfit := result.monthlyProfit
      profits := st.profits ++ [result.profit] }
  else st

/-- `detectPriceSpikes` (source lines 45–80): fold the per-index step
over the indices `1, …, data.length - 1` starting from the initial
ledger, and return the final ledger (the printed summary). -/
def detectPriceSpikes {M : Type} [DecidableEq M] (monthOf : ℤ → M) (threshold : ℚ)
    (initialBalance : ℚ) (data : List OHLCV) : Ledger M :=
  (List.range' 1 (data.length - 1)).foldl (stepSpike monthOf threshold data)
    (initialLedger initialBalance)

/-- Candle with the given timestamp, high, low and close (open and
volume zero); used only to build concrete test series. -/
def mkCandle (ts : ℤ) (h l c : ℚ) : OHLCV :=
  ⟨ts, 0, h, l, c, 0⟩

/-! ### Concrete candle series used by witnesses and counterexamples -/

/-- Closes `[100, 98, 102]`: the series of the spec's end-to-end
scenario 1 (highs/lows set to the close; they play no role in the
detection claims). -/
def data9 : List OHLCV :=
  [mkCandle 0 100 100 100, mkCandle 1 98 98 98, mkCandle 2 102 102 102]

/-- Closes `[-1, 5]`: a series whose first close is negative, so the
change at index 1 divides by a negative previous close. -/
def data7 : List OHLCV :=
  [mkCandle 0 (-1) (-1) (-1), mkCandle 1 5 5 5]

/-- Four candles with closes `[100, 102, 104, 104]`.  The +2% move at
index 1 opens a short whose target (100.98) is not reached at index 2
(low 101.5) but is reached at index 3 (low 100); the +2/102 move at
index 2 opens a second short while the first is still unresolved. -/
def dataOv : List OHLCV :=
  [mkCandle 0 100 100 100, mkCandle 1 102 102 102,
   mkCandle 2 105 (203/2) 104, mkCandle 3 104 100 104]

/-- Closes `[100, 102]`, then a candle whose range `[90, 200]` spans
both the short target 100.98 and the short stop 104.04. -/
def dataSpan : List OHLCV :=
  [mkCandle 0 100 100 100, mkCandle 1 102 102 102, mkCandle 2 200 90 150]

/-- Closes `[100, 102]` only: a trade opened at index 1 has no
remaining candles to scan. -/
def dataEnd : List OHLCV :=
  [mkCandle 0 100 100 100, mkCandle 1 102 102 102]

/-! ### Shared lemmas -/

/-- In every branch of `executeTrade`, the returned balance is the
input balance plus the returned signed profit. -/
theorem executeTrade_balance {M : Type} [DecidableEq M] (monthOf : ℤ → M)
    (data : List OHLCV) (index : ℕ) (chg : ℚ) (isShort : Bool)
    (currentBalance : ℚ) (mp : M → ℚ) :
    (executeTrade monthOf data index chg isShort currentBalance mp).balance
      = currentBalance
          + (executeTrade monthOf data index chg isShort currentBalance mp).profit := by
  simp only [executeTrade]
  split <;> rfl

/-- One loop iteration records exactly one trade when
`|change| > threshold` and leaves `totalTrades` unchanged otherwise,
with no further condition on the prices involved. -/
theorem stepSpike_totalTrades {M : Type} [DecidableEq M] (monthOf : ℤ → M)
    (threshold : ℚ) (data : List OHLCV) (st : Ledger M) (i : ℕ) :
    (stepSpike monthOf threshold data st i).totalTrades
      = if |changeAt data i| > threshold then st.totalTrades + 1 else st.totalTrades := by
  simp only [stepSpike]
  split <;> rfl

/-- One loop iteration preserves `currentBalance - sum profits`. -/
theorem stepSpike_balance_sum {M : Type} [DecidableEq M] (monthOf : ℤ → M)
    (threshold : ℚ) (data : List OHLCV) (st : Ledger M) (i : ℕ) :
    (stepSpike monthOf threshold data st i).currentBalance
        - ((stepSpike monthOf threshold data st i).profits).sum
      = st.currentBalance - st.profits.sum := by
  simp only [stepSpike]
  split
  · simp only [executeTrade_balance, List.sum_append, List.sum_cons, List.sum_nil]
    ring
  · rfl

/-- Folding any list of indices preserves `currentBalance - sum profits`. -/
theorem foldl_balance_sum {M : Type} [DecidableEq M] (monthOf : ℤ → M)
    (threshold : ℚ) (data : List OHLCV) (l : List ℕ) (st : Ledger M) :
    (l.foldl (stepSpike monthOf threshold data) st).currentBalance
        - ((l.foldl (stepSpike monthOf threshold data) st).profits).sum
      = st.currentBalance - st.profits.sum := by
  induction l generalizing st with
  | nil => rfl
  | cons a l ih =>
    rw [List.foldl_cons, ih]
    exact stepSpike_balance_sum monthOf threshold data st a

/-- One loop iteration preserves `totalTrades = winningTrades + losingTrades`. -/
theorem stepSpike_counters {M : Type} [DecidableEq M] (monthOf : ℤ → M)
    (threshold : ℚ) (data : List OHLCV) (st : Ledger M) (i : ℕ)
    (h : st.totalTrades = st.winningTrades + st.losingTrades) :
    (stepSpike monthOf threshold data st i).totalTrades
      = (stepSpike monthOf threshold data st i).winningTrades
          + (stepSpike monthOf threshold data st i).losingTrades := by
  simp only [stepSpike]
  split
  · by_cases hp :
      (executeTrade monthOf data i (changeAt data i)
        (decide (changeAt data i > 0)) st.currentBalance st.monthlyProfit).profit > 0 <;>
      simp [hp] <;> omega
  · exact h

/-- Folding any list of indices preserves
`totalTrades = winningTrades + losingTrades`. -/
theorem foldl_counters {M : Type} [DecidableEq M] (monthOf : ℤ → M)
    (threshold : ℚ) (data : List OHLCV) (l : List ℕ) (st : Ledger M)
    (h : st.totalTrades = st.winningTrades + st.losingTrades) :
    (l.foldl (stepSpike monthOf threshold data) st).totalTrades
      = (l.foldl (stepSpike monthOf threshold data) st).winningTrades
          + (l.foldl (stepSpike monthOf threshold data) st).losingTrades := by
  induction l generalizing st with
  | nil => exact h
  | cons a l ih =>
    rw [List.foldl_cons]
    exact ih _ (stepSpike_counters monthOf threshold data st a h)

/-- Folding a list of indices adds to `totalTrades` exactly the number
of indices whose relative change exceeds the threshold in magnitude. -/
theorem foldl_totalTrades_count {M : Type} [DecidableEq M] (monthOf : ℤ → M)
    (threshold : ℚ) (data : List OHLCV) (l : List ℕ) (st : Ledger M) :
    (l.foldl (stepSpike monthOf threshold data) st).totalTrades
      = st.totalTrades + l.countP (fun i => decide (|changeAt data i| > threshold)) := by
  induction l generalizing st with
  | nil => simp
  | cons a l ih =>
    rw [List.foldl_cons, ih, stepSpike_totalTrades, List.countP_cons]
    by_cases hc : |changeAt data a| > threshold
    · simp [hc]
      omega
    · simp [hc]

/-- The scan of an empty remaining series resolves nothing. -/
theorem tradeScan_nil (isShort : Bool) (entryPrice tp sl bal : ℚ) :
    tradeScan isShort entryPrice tp sl bal [] = none := rfl

/-- A short whose next candle's low reaches the target resolves on that
candle through the first (take-profit) branch. -/
theorem tradeScan_cons_short_target (entryPrice tp sl bal : ℚ) (c : OHLCV)
    (rest : List OHLCV) (h : c.low ≤ tp) :
    tradeScan true entryPrice tp sl bal (c :: rest)
      = some ⟨(entryPrice - c.low) / entryPrice * bal, ExitKind.targetHit, c.timestamp⟩ := by
  simp [tradeScan, h]

/-- A long whose next candle's high reaches the target resolves on that
candle through the second (take-profit) branch. -/
theorem tradeScan_cons_long_target (entryPrice tp sl bal : ℚ) (c : OHLCV)
    (rest : List OHLCV) (h : tp ≤ c.high) :
    tradeScan false entryPrice tp sl bal (c :: rest)
      = some ⟨(c.high - entryPrice) / entryPrice * bal, ExitKind.targetHit, c.timestamp⟩ := by
  simp [tradeScan, h]

/-- `executeTrade` when the forward scan resolves the trade. -/
theorem executeTrade_scan_some {M : Type} [DecidableEq M] (monthOf : ℤ → M)
    (data : List OHLCV) (index : ℕ) (chg : ℚ) (isShort : Bool)
    (bal : ℚ) (mp : M → ℚ) (e : ScanExit)
    (h : tradeScan isShort ((data.getD index default).close)
        (targetPrice isShort ((data.getD index default).close) |chg|)
        (stopLossPrice isShort ((data.getD index default).close) |chg|)
        bal (data.drop (index + 1)) = some e) :
    executeTrade monthOf data index chg isShort bal mp
      = { balance := bal + e.profit
          profit := e.profit
          monthlyProfit := fun m =>
            if m = monthOf e.ts then mp m + e.profit else mp m
          kind := e.kind
          exitTs := e.ts } := by
  simp only [executeTrade, h]

/-- `executeTrade` when the forward scan exhausts the series: the
force close at the last candle's close. -/
theorem executeTrade_scan_none {M : Type} [DecidableEq M] (monthOf : ℤ → M)
    (data : List OHLCV) (index : ℕ) (chg : ℚ) (isShort : Bool)
    (bal : ℚ) (mp : M → ℚ)
    (h : tradeScan isShort ((data.getD index default).close)
        (targetPrice isShort ((data.getD index default).close) |chg|)
        (stopLossPrice isShort ((data.getD index default).close) |chg|)
        bal (data.drop (index + 1)) = none) :
    executeTrade monthOf data index chg isShort bal mp
      = { balance := bal
            + (if isShort then
                -(((data.getLastD default).close - (data.getD index default).close)
                  / (data.getD index default).close * bal)
              else
                ((data.getLastD default).close - (data.getD index default).close)
                  / (data.getD index default).close * bal)
          profit :=
            if isShort then
              -(((data.getLastD default).close - (data.getD index default).close)
                / (data.getD index default).close * bal)
            else
              ((data.getLastD default).close - (data.getD index default).close)
                / (data.getD index default).close * bal
          monthlyProfit := fun m =>
            if m = monthOf (data.getLastD default).timestamp then
              mp m
                + (if isShort then
                    -(((data.getLastD default).close - (data.getD index default).close)
                      / (data.getD index default).close * bal)
                  else
                    ((data.getLastD default).close - (data.getD index default).close)
                      / (data.getD index default).close * bal)
            else mp m
          kind := ExitKind.forceClosed
          exitTs := (data.getLastD default).timestamp } := by
  simp only [executeTrade, h]

/-- On any resolving candle, the take-profit branch yields a strictly
positive profit and the stop-loss branch a strictly negative one, given
a positive entry price, a positive balance and a positive magnitude. -/
theorem tradeScan_profit_sign (isShort : Bool) (entryPrice m bal : ℚ)
    (hE : 0 < entryPrice) (hbal : 0 < bal) (hm : 0 < m) :
    ∀ (l : List OHLCV) (e : ScanExit),
      tradeScan isShort entryPrice (targetPrice isShort entryPrice m)
          (stopLossPrice isShort entryPrice m) bal l = some e →
      (e.kind = ExitKind.targetHit → 0 < e.profit)
        ∧ (e.kind = ExitKind.stopHit → e.profit < 0) := by
  have hmE : 0 < m / 2 * entryPrice := mul_pos (by linarith) hE
  have hmE2 : 0 < m * entryPrice := mul_pos hm hE
  cases isShort with
  | true =>
    have htp : targetPrice true entryPrice m = entryPrice - m / 2 * entryPrice := by
      simp [targetPrice]
    have hsl : stopLossPrice true entryPrice m = entryPrice + m * entryPrice := by
      simp [stopLossPrice]
    rw [htp, hsl]
    intro l
    induction l with
    | nil =>
      intro e h
      exact absurd h (by simp [tradeScan])
    | cons c rest ih =>
      intro e h
      simp only [tradeScan, eq_self_iff_true, if_true, true_and, Bool.true_eq_false,
        false_and, if_false, false_or, or_false, ge_iff_le] at h
      by_cases h1 : c.low ≤ entryPrice - m / 2 * entryPrice
      · rw [if_pos h1] at h
        obtain rfl := Option.some.inj h
        refine ⟨fun _ => ?_, fun hk => by simp at hk⟩
        exact mul_pos (div_pos (by linarith) hE) hbal
      · rw [if_neg h1] at h
        by_cases h2 : entryPrice + m * entryPrice ≤ c.low
        · rw [if_pos h2] at h
          obtain rfl := Option.some.inj h
          refine ⟨fun hk => by simp at hk, fun _ => ?_⟩
          have hne : (c.low - entryPrice) / entryPrice * bal ≠ 0 :=
            ne_of_gt (mul_pos (div_pos (by linarith) hE) hbal)
          exact neg_lt_zero.mpr (abs_pos.mpr hne)
        · rw [if_neg h2] at h
          exact ih e h
  | false =>
    have htp : targetPrice false entryPrice m = entryPrice + m / 2 * entryPrice := by
      simp [targetPrice]
    have hsl : stopLossPrice false entryPrice m = entryPrice - m * entryPrice := by
      simp [stopLossPrice]
    rw [htp, hsl]
    intro l
    induction l with
    | nil =>
      intro e h
      exact absurd h (by simp [tradeScan])
    | cons c rest ih =>
      intro e h
      simp only [tradeScan, eq_self_iff_true, if_true, true_and, Bool.false_eq_true,
        false_and, if_false, false_or, or_false, ge_iff_le] at h
      by_cases h1 : entryPrice + m / 2 * entryPrice ≤ c.high
      · rw [if_pos h1] at h
        obtain rfl := Option.some.inj h
        refine ⟨fun _ => ?_, fun hk => by simp at hk⟩
        exact mul_pos (div_pos (by linarith) hE) hbal
      · rw [if_neg h1] at h
        by_cases h2 : c.high ≤ entryPrice - m * entryPrice
        · rw [if_pos h2] at h
          obtain rfl := Option.some.inj h
          refine ⟨fun hk => by simp at hk, fun _ => ?_⟩
          have hne : (c.high - entryPrice) / entryPrice * bal ≠ 0 :=
            ne_of_lt
              (mul_neg_of_neg_of_pos (div_neg_of_neg_of_pos (by linarith) hE) hbal)
          exact neg_lt_zero.mpr (abs_pos.mpr hne)
        · rw [if_neg h2] at h
          exact ih e h

/-- The forward scan only resolves through the take-profit or the
stop-loss branch, never through the force close. -/
theorem tradeScan_kind_ne_forceClosed (isShort : Bool) (entryPrice tp sl bal : ℚ) :
    ∀ (l : List OHLCV) (e : ScanExit),
      tradeScan isShort entryPrice tp sl bal l = some e →
      e.kind ≠ ExitKind.forceClosed := by
  intro l
  induction l with
  | nil =>
    intro e h
    exact absurd h (by simp [tradeScan])
  | cons c rest ih =>
    intro e h
    simp only [tradeScan] at h
    by_cases h1 : isShort = true ∧ (if isShort = true then c.low else c.high) ≤ tp
    · rw [if_pos h1] at h
      obtain rfl := Option.some.inj h
      simp
    · rw [if_neg h1] at h
      by_cases h2 : isShort = false ∧ (if isShort = true then c.low else c.high) ≥ tp
      · rw [if_pos h2] at h
        obtain rfl := Option.some.inj h
        simp
      · rw [if_neg h2] at h
        by_cases h3 : (isShort = true ∧ (if isShort = true then c.low else c.high) ≥ sl)
            ∨ (isShort = false ∧ (if isShort = true then c.low else c.high) ≤ sl)
        · rw [if_pos h3] at h
          obtain rfl := Option.some.inj h
          simp
        · rw [if_neg h3] at h
          exact ih e h

/-! ### Claims -/

/-- C1: for every candle series and every positive threshold, the final
balance of the backtest run equals the initial balance plus the sum of
all trade profits recorded during the run, and the same identity holds
after any number of loop iterations (in particular after each
individual trade is recorded). -/
theorem claim1_ledger_consistency {M : Type} [DecidableEq M] (monthOf : ℤ → M)
    (threshold initialBalance : ℚ) (data : List OHLCV)
    (hthr : 0 < threshold) :
    (detectPriceSpikes monthOf threshold initialBalance data).currentBalance
        = initialBalance
            + ((detectPriceSpikes monthOf threshold initialBalance data).profits).sum
      ∧ ∀ l : List ℕ,
        (l.foldl (stepSpike monthOf threshold data) (initialLedger initialBalance)).currentBalance
          = initialBalance
              + ((l.foldl (stepSpike monthOf threshold data)
                  (initialLedger initialBalance)).profits).sum := by
  have key : ∀ l : List ℕ,
      (l.foldl (stepSpike monthOf threshold data) (initialLedger initialBalance)).currentBalance
        = initialBalance
            + ((l.foldl (stepSpike monthOf threshold data)
                (initialLedger initialBalance)).profits).sum := by
    intro l
    have h := foldl_balance_sum monthOf threshold data l
      (initialLedger (M := M) initialBalance)
    have h0 : (initialLedger (M := M) initialBalance).currentBalance
        - ((initialLedger (M := M) initialBalance).profits).sum = initialBalance := by
      simp [initialLedger]
    rw [h0] at h
    linarith
  exact ⟨key (List.range' 1 (data.length - 1)), key⟩

/-- Witness for C1 at the concrete series `data9` with threshold 1/100
and initial balance 1000. -/
theorem claim1_witness :
    (0 : ℚ) < 1/100
      ∧ (detectPriceSpikes (fun t => t) (1/100) 1000 data9).currentBalance
          = 1000 + ((detectPriceSpikes (fun t => t) (1/100) 1000 data9).profits).sum :=
  ⟨by norm_num,
    (claim1_ledger_consistency (fun t => t) (1/100) 1000 data9 (by norm_num)).1⟩

/-- C2: when a trade is recorded (`|change| > threshold`), the step
increments `totalTrades` by one, increments `winningTrades` iff the
trade's profit is strictly positive, otherwise increments
`losingTrades` (so a zero-profit trade counts as losing); and
`totalTrades = winningTrades + losingTrades` holds after any number of
loop iterations from the initial ledger. -/
theorem claim2_trade_counters {M : Type} [DecidableEq M] (monthOf : ℤ → M)
    (threshold initialBalance : ℚ) (data : List OHLCV) (st : Ledger M) (i : ℕ)
    (h : |changeAt data i| > threshold) :
    (stepSpike monthOf threshold data st i).totalTrades = st.totalTrades + 1
      ∧ ((stepSpike monthOf threshold data st i).winningTrades = st.winningTrades + 1
          ↔ 0 < (executeTrade monthOf data i (changeAt data i)
              (decide (changeAt data i > 0)) st.currentBalance st.monthlyProfit).profit)
      ∧ ((stepSpike monthOf threshold data st i).losingTrades = st.losingTrades + 1
          ↔ ¬ 0 < (executeTrade monthOf data i (changeAt data i)
              (decide (changeAt data i > 0)) st.currentBalance st.monthlyProfit).profit)
      ∧ ∀ l : List ℕ,
        (l.foldl (stepSpike monthOf threshold data) (initialLedger initialBalance)).totalTrades
          = (l.foldl (stepSpike monthOf threshold data)
              (initialLedger initialBalance)).winningTrades
            + (l.foldl (stepSpike monthOf threshold data)
                (initialLedger initialBalance)).losingTrades := by
  refine ⟨?_, ?_, ?_, ?_⟩
  · rw [stepSpike_totalTrades, if_pos h]
  · simp only [stepSpike]
    rw [if_pos h]
    by_cases hp : 0 < (executeTrade monthOf data i (changeAt data i)
        (decide (changeAt data i > 0)) st.currentBalance st.monthlyProfit).profit
    · simp [hp]
    · simp [hp]
  · simp only [stepSpike]
    rw [if_pos h]
    by_cases hp : 0 < (executeTrade monthOf data i (changeAt data i)
        (decide (changeAt data i > 0)) st.currentBalance st.monthlyProfit).profit
    · simp [hp]
    · simp [hp]
  · intro l
    exact foldl_counters monthOf threshold data l (initialLedger initialBalance) rfl

/-- Witness for C2 at the spike at index 1 of `data9`. -/
theorem claim2_witness :
    |changeAt data9 1| > (1/100 : ℚ)
      ∧ (stepSpike (fun t => t) (1/100) data9 (initialLedger 1000) 1).totalTrades
          = (initialLedger (M := ℤ) 1000).totalTrades + 1 := by
  have h : |changeAt data9 1| > (1/100 : ℚ) := by
    norm_num [changeAt, data9, mkCandle, abs]
  exact ⟨h,
    (claim2_trade_counters (fun t => t) (1/100) 1000 data9 (initialLedger 1000) 1 h).1⟩

/-- C3: with a positive previous close, the detector emits a signal iff
`|change| > threshold` where
`change = (current - previous) / previous`; a magnitude exactly equal
to the threshold emits nothing; the direction is short exactly when the
change is positive and long exactly when it is negative; and the
backtest loop records a trade at an index iff the detector emits a
signal on that pair of consecutive closes. -/
theorem claim3_spike_detection {M : Type} [DecidableEq M] (monthOf : ℤ → M)
    (threshold previousPrice currentPrice chg : ℚ)
    (_hprev : 0 < previousPrice)
    (hch : chg = (currentPrice - previousPrice) / previousPrice) :
    ((detectSignal threshold previousPrice currentPrice).isSome ↔ |chg| > threshold)
      ∧ (|chg| = threshold → detectSignal threshold previousPrice currentPrice = none)
      ∧ (|chg| > threshold → chg > 0 →
          detectSignal threshold previousPrice currentPrice = some true)
      ∧ (|chg| > threshold → chg < 0 →
          detectSignal threshold previousPrice currentPrice = some false)
      ∧ ∀ (data : List OHLCV) (st : Ledger M) (i : ℕ),
          (data.getD (i - 1) default).close = previousPrice →
          (data.getD i default).close = currentPrice →
          ((stepSpike monthOf threshold data st i).totalTrades = st.totalTrades + 1
            ↔ (detectSignal threshold previousPrice currentPrice).isSome) := by
  subst hch
  refine ⟨?_, ?_, ?_, ?_, ?_⟩
  · by_cases hc : |(currentPrice - previousPrice) / previousPrice| > threshold
    · simp [detectSignal, hc]
    · simp [detectSignal, hc]
  · intro heq
    have hc : ¬ |(currentPrice - previousPrice) / previousPrice| > threshold := by
      rw [heq]
      exact lt_irrefl threshold
    simp [detectSignal, hc]
  · intro h1 h2
    simp [detectSignal, h1, h2]
  · intro h1 h2
    simp only [detectSignal]
    rw [if_pos h1]
    simp only [Option.some.injEq, decide_eq_false_iff_not, not_lt]
    exact h2.le
  · intro data st i h1 h2
    have hch2 : changeAt data i = (currentPrice - previousPrice) / previousPrice := by
      rw [changeAt, h1, h2]
    rw [stepSpike_totalTrades, hch2]
    by_cases hc : |(currentPrice - previousPrice) / previousPrice| > threshold
    · simp [detectSignal, hc]
    · simp [detectSignal, hc]

/-- Witness for C3 at previous close 100, current close 98,
threshold 1/100: the detector emits a long (non-short) signal. -/
theorem claim3_witness :
    (0 : ℚ) < 100
      ∧ ((-1)/50 : ℚ) = (98 - 100) / 100
      ∧ detectSignal (1/100) 100 98 = some false := by
  have h1 : (0 : ℚ) < 100 := by norm_num
  have h2 : ((-1)/50 : ℚ) = (98 - 100) / 100 := by norm_num
  refine ⟨h1, h2, ?_⟩
  exact (claim3_spike_detection (M := ℤ) (fun t => t) (1/100) 100 98 ((-1)/50) h1 h2).2.2.2.1
    (by norm_num [abs]) (by norm_num)

/-- C4: the simulator's take-profit price is `E * (1 - m/2)` for a
short and `E * (1 + m/2)` for a long, and its stop-loss price is
`E * (1 + m)` for a short and `E * (1 - m)` for a long, where `m` is
the absolute value of the triggering relative change. -/
theorem claim4_target_stop_prices (entryPrice chg : ℚ) :
    targetPrice true entryPrice |chg| = entryPrice * (1 - |chg| / 2)
      ∧ targetPrice false entryPrice |chg| = entryPrice * (1 + |chg| / 2)
      ∧ stopLossPrice true entryPrice |chg| = entryPrice * (1 + |chg|)
      ∧ stopLossPrice false entryPrice |chg| = entryPrice * (1 - |chg|) := by
  refine ⟨?_, ?_, ?_, ?_⟩
  · rw [targetPrice, if_pos rfl]
    ring
  · rw [targetPrice, if_neg (by simp)]
    ring
  · rw [stopLossPrice, if_pos rfl]
    ring
  · rw [stopLossPrice, if_neg (by simp)]
    ring

/-- C5: the forward scan's touch price is the candle's low for a short
and its high for a long, and the take-profit branches are tested before
the stop-loss branch; consequently, whenever the first candle after the
open spans both the target and the stop (each condition satisfiable
within that candle's low–high range), the trade resolves on that candle
as a win (take-profit branch). -/
theorem claim5_span_resolves_as_win {M : Type} [DecidableEq M] (monthOf : ℤ → M)
    (data : List OHLCV) (index : ℕ) (chg : ℚ) (isShort : Bool)
    (currentBalance : ℚ) (mp : M → ℚ)
    (hnext : index + 1 < data.length)
    (hspan :
      if isShort then
        (data.getD (index + 1) default).low
            ≤ targetPrice true ((data.getD index default).close) |chg|
          ∧ stopLossPrice true ((data.getD index default).close) |chg|
            ≤ (data.getD (index + 1) default).high
      else
        (data.getD (index + 1) default).low
            ≤ stopLossPrice false ((data.getD index default).close) |chg|
          ∧ targetPrice false ((data.getD index default).close) |chg|
            ≤ (data.getD (index + 1) default).high) :
    (executeTrade monthOf data index chg isShort currentBalance mp).kind
        = ExitKind.targetHit
      ∧ (executeTrade monthOf data index chg isShort currentBalance mp).exitTs
        = (data.getD (index + 1) default).timestamp := by
  have hget : data.getD (index + 1) default = data[index + 1] :=
    List.getD_eq_getElem data default hnext
  have hdrop : data.drop (index + 1) = data[index + 1] :: data.drop (index + 2) :=
    List.drop_eq_getElem_cons hnext
  cases isShort with
  | true =>
    simp only [eq_self_iff_true, if_true] at hspan
    obtain ⟨h1, _h2⟩ := hspan
    rw [hget] at h1
    have hscan :
        tradeScan true ((data.getD index default).close)
            (targetPrice true ((data.getD index default).close) |chg|)
            (stopLossPrice true ((data.getD index default).close) |chg|)
            currentBalance (data.drop (index + 1))
          = some ⟨((data.getD index default).close - (data[index + 1]).low)
              / (data.getD index default).close * currentBalance,
              ExitKind.targetHit, (data[index + 1]).timestamp⟩ := by
      rw [hdrop]
      exact tradeScan_cons_short_target _ _ _ _ _ _ h1
    rw [executeTrade_scan_some monthOf data index chg true currentBalance mp _ hscan]
    exact ⟨rfl, by rw [hget]⟩
  | false =>
    simp only [Bool.false_eq_true, if_false] at hspan
    obtain ⟨_h1, h2⟩ := hspan
    rw [hget] at h2
    have hscan :
        tradeScan false ((data.getD index default).close)
            (targetPrice false ((data.getD index default).close) |chg|)
            (stopLossPrice false ((data.getD index default).close) |chg|)
            currentBalance (data.drop (index + 1))
          = some ⟨((data[index + 1]).high - (data.getD index default).close)
              / (data.getD index default).close * currentBalance,
              ExitKind.targetHit, (data[index + 1]).timestamp⟩ := by
      rw [hdrop]
      exact tradeScan_cons_long_target _ _ _ _ _ _ h2
    rw [executeTrade_scan_some monthOf data index chg false currentBalance mp _ hscan]
    exact ⟨rfl, by rw [hget]⟩

/-- Witness for C5: in `dataSpan` the candle after the spike at index 1
spans both the short target (100.98) and the short stop (104.04), and
the trade resolves as a win. -/
theorem claim5_witness :
    1 + 1 < dataSpan.length
      ∧ (executeTrade (fun t => t) dataSpan 1 (changeAt dataSpan 1) true 1000
          (fun _ => 0)).kind = ExitKind.targetHit := by
  have hnext : 1 + 1 < dataSpan.length := by norm_num [dataSpan]
  refine ⟨hnext, ?_⟩
  exact (claim5_span_resolves_as_win (fun t => t) dataSpan 1 (changeAt dataSpan 1)
    true 1000 (fun _ => 0) hnext
    (by norm_num [dataSpan, mkCandle, targetPrice, stopLossPrice, changeAt, abs])).1

/-- C6: a trade whose scan exhausts the series is force-closed at the
last candle's close with
`profit = ±(lastClose - entryPrice)/entryPrice * currentBalance`
(negated for a short), the month key coming from the last candle; in
particular, a trade opened at the last index of a non-empty series (no
remaining candles) has profit exactly 0, an unchanged balance, and its
month key taken from the entry candle. -/
theorem claim6_force_close {M : Type} [DecidableEq M] (monthOf : ℤ → M)
    (data : List OHLCV) (index : ℕ) (chg : ℚ) (isShort : Bool)
    (currentBalance : ℚ) (mp : M → ℚ) :
    ((executeTrade monthOf data index chg isShort currentBalance mp).kind
        = ExitKind.forceClosed →
      (executeTrade monthOf data index chg isShort currentBalance mp).profit
          = (if isShort then
              -(((data.getLastD default).close - (data.getD index default).close)
                / (data.getD index default).close * currentBalance)
            else
              ((data.getLastD default).close - (data.getD index default).close)
                / (data.getD index default).close * currentBalance)
        ∧ (executeTrade monthOf data index chg isShort currentBalance mp).exitTs
          = (data.getLastD default).timestamp)
      ∧ (index = data.length - 1 → data ≠ [] →
          0 < (data.getD index default).close →
          (executeTrade monthOf data index chg isShort currentBalance mp).profit = 0
            ∧ (executeTrade monthOf data index chg isShort currentBalance mp).balance
                = currentBalance
            ∧ (executeTrade monthOf data index chg isShort currentBalance mp).exitTs
                = (data.getD index default).timestamp) := by
  cases hscan : tradeScan isShort ((data.getD index default).close)
      (targetPrice isShort ((data.getD index default).close) |chg|)
      (stopLossPrice isShort ((data.getD index default).close) |chg|)
      currentBalance (data.drop (index + 1)) with
  | some e =>
    constructor
    · intro hkind
      rw [executeTrade_scan_some monthOf data index chg isShort currentBalance mp e hscan]
        at hkind
      exact absurd hkind
        (tradeScan_kind_ne_forceClosed isShort _ _ _ _ (data.drop (index + 1)) e hscan)
    · intro hidx hne _hE
      exfalso
      have hlen : 0 < data.length := List.length_pos.mpr hne
      have hdropnil : data.drop (index + 1) = [] := by
        have : index + 1 = data.length := by omega
        rw [this]
        exact List.drop_length data
      rw [hdropnil, tradeScan_nil] at hscan
      exact Option.noConfusion hscan
  | none =>
    have hmain := executeTrade_scan_none monthOf data index chg isShort currentBalance mp hscan
    constructor
    · intro _
      rw [hmain]
      exact ⟨rfl, rfl⟩
    · intro hidx hne _hE
      have hlast : data.getLastD default = data.getD (data.length - 1) default := by
        rw [List.getLastD_eq_getLast?, List.getLast?_eq_getElem?,
          List.getD_eq_getElem?_getD]
      rw [hmain, hlast, ← hidx]
      refine ⟨?_, ?_, rfl⟩
      · simp
      · simp

/-- Witness for C6: a trade opened at the last index of `dataEnd`
resolves with zero profit, an unchanged balance, and the entry candle's
timestamp as exit. -/
theorem claim6_witness :
    1 = dataEnd.length - 1
      ∧ dataEnd ≠ []
      ∧ 0 < (dataEnd.getD 1 default).close
      ∧ (executeTrade (fun t => t) dataEnd 1 (changeAt dataEnd 1) true 1000
            (fun _ => 0)).profit = 0
      ∧ (executeTrade (fun t => t) dataEnd 1 (changeAt dataEnd 1) true 1000
            (fun _ => 0)).balance = 1000
      ∧ (executeTrade (fun t => t) dataEnd 1 (changeAt dataEnd 1) true 1000
            (fun _ => 0)).exitTs = (dataEnd.getD 1 default).timestamp := by
  have h1 : 1 = dataEnd.length - 1 := by norm_num [dataEnd]
  have h2 : dataEnd ≠ [] := by simp [dataEnd]
  have h3 : 0 < (dataEnd.getD 1 default).close := by norm_num [dataEnd, mkCandle]
  have h := (claim6_force_close (fun t => t) dataEnd 1 (changeAt dataEnd 1) true 1000
    (fun _ => 0)).2 h1 h2 h3
  exact ⟨h1, h2, h3, h.1, h.2.1, h.2.2⟩

/-- C10: with a positive entry price, a positive balance and a nonzero
triggering change, a take-profit resolution has strictly positive
profit, a stop-loss resolution has strictly negative profit, and a zero
profit can only come from a force close. -/
theorem claim10_outcome_profit_signs {M : Type} [DecidableEq M] (monthOf : ℤ → M)
    (data : List OHLCV) (index : ℕ) (chg : ℚ) (isShort : Bool)
    (currentBalance : ℚ) (mp : M → ℚ)
    (hE : 0 < (data.getD index default).close)
    (hbal : 0 < currentBalance) (hchg : chg ≠ 0) :
    ((executeTrade monthOf data index chg isShort currentBalance mp).kind
        = ExitKind.targetHit →
      0 < (executeTrade monthOf data index chg isShort currentBalance mp).profit)
      ∧ ((executeTrade monthOf data index chg isShort currentBalance mp).kind
          = ExitKind.stopHit →
        (executeTrade monthOf data index chg isShort currentBalance mp).profit < 0)
      ∧ ((executeTrade monthOf data index chg isShort currentBalance mp).profit = 0 →
        (executeTrade monthOf data index chg isShort currentBalance mp).kind
          = ExitKind.forceClosed) := by
  have hm : 0 < |chg| := abs_pos.mpr hchg
  cases hscan : tradeScan isShort ((data.getD index default).close)
      (targetPrice isShort ((data.getD index default).close) |chg|)
      (stopLossPrice isShort ((data.getD index default).close) |chg|)
      currentBalance (data.drop (index + 1)) with
  | none =>
    rw [executeTrade_scan_none monthOf data index chg isShort currentBalance mp hscan]
    exact ⟨fun hk => absurd hk (by simp), fun hk => absurd hk (by simp), fun _ => rfl⟩
  | some e =>
    rw [executeTrade_scan_some monthOf data index chg isShort currentBalance mp e hscan]
    have hsign := tradeScan_profit_sign isShort ((data.getD index default).close)
      |chg| currentBalance hE hbal hm (data.drop (index + 1)) e hscan
    refine ⟨hsign.1, hsign.2, fun h0 => ?_⟩
    rcases he : e.kind with _ | _ | _
    · exact absurd h0 (ne_of_gt (hsign.1 he))
    · exact absurd h0 (ne_of_lt (hsign.2 he))
    · rfl

/-- Witness for C10 at the short opened at index 1 of `dataSpan`, which
resolves through the take-profit branch with positive profit. -/
theorem claim10_witness :
    0 < (dataSpan.getD 1 default).close
      ∧ (0 : ℚ) < 1000
      ∧ changeAt dataSpan 1 ≠ 0
      ∧ 0 < (executeTrade (fun t => t) dataSpan 1 (changeAt dataSpan 1) true 1000
            (fun _ => 0)).profit := by
  have h1 : 0 < (dataSpan.getD 1 default).close := by norm_num [dataSpan, mkCandle]
  have h2 : (0 : ℚ) < 1000 := by norm_num
  have h3 : changeAt dataSpan 1 ≠ 0 := by norm_num [changeAt, dataSpan, mkCandle]
  refine ⟨h1, h2, h3, ?_⟩
  refine (claim10_outcome_profit_signs (fun t => t) dataSpan 1 (changeAt dataSpan 1)
    true 1000 (fun _ => 0) h1 h2 h3).1 ?_
  norm_num [executeTrade, tradeScan, targetPrice, stopLossPrice, changeAt,
    dataSpan, mkCandle, abs]

/-- C7 counterexample: the claim asserts that a non-positive previous
close makes the affected signal/trade computation fail with
`InvalidPriceData` and the offending index be skipped.  In `data7` the
previous close is −1 (≤ 0), yet the run records a trade at index 1
(`totalTrades = 1`): the division is performed, nothing fails, and the
index is not skipped. -/
theorem claim7_counterexample :
    (detectPriceSpikes (fun t => t) (1/100) 1000 data7).totalTrades = 1 := by
  norm_num [detectPriceSpikes, stepSpike, executeTrade, tradeScan, changeAt,
    targetPrice, stopLossPrice, initialLedger, data7, mkCandle, abs, List.range']

/-- C7 amended: the code has no price-positivity guard and no error
path: one loop iteration records a trade exactly when
`|change| > threshold` — for every series and every index, whatever the
sign of the previous close (the division is always performed) — and the
run continues without aborting. -/
theorem claim7_amended_no_guard {M : Type} [DecidableEq M] (monthOf : ℤ → M)
    (threshold : ℚ) (data : List OHLCV) (st : Ledger M) (i : ℕ) :
    (stepSpike monthOf threshold data st i).totalTrades
      = if |changeAt data i| > threshold then st.totalTrades + 1
        else st.totalTrades :=
  stepSpike_totalTrades monthOf threshold data st i

/-- C8: the outer scan advances by exactly one index and never jumps to
a trade's exit index: for every series the run's trade count equals the
number of indices in `1 … len−1` whose change exceeds the threshold, no
matter where earlier trades' simulated resolutions ended; concretely,
in `dataOv` the trade opened at index 1 resolves only at the candle
with timestamp 3, yet a second trade is recorded at index 2
(`totalTrades = 2`) — simulated trades overlap in time. -/
theorem claim8_scan_advances_one_index :
    (∀ {M : Type} [DecidableEq M] (monthOf : ℤ → M)
        (threshold initialBalance : ℚ) (data : List OHLCV),
      (detectPriceSpikes monthOf threshold initialBalance data).totalTrades
        = (List.range' 1 (data.length - 1)).countP
            (fun i => decide (|changeAt data i| > threshold)))
      ∧ (detectPriceSpikes (fun t => t) (1/100) 1000 dataOv).totalTrades = 2
      ∧ (executeTrade (fun t => t) dataOv 1 (changeAt dataOv 1) true 1000
          (fun _ => 0)).exitTs = 3 := by
  refine ⟨?_, ?_, ?_⟩
  · intro M instM monthOf threshold initialBalance data
    rw [detectPriceSpikes, foldl_totalTrades_count]
    simp [initialLedger]
  · norm_num [detectPriceSpikes, stepSpike, executeTrade, tradeScan, changeAt,
      targetPrice, stopLossPrice, initialLedger, dataOv, mkCandle, abs, List.range']
  · norm_num [executeTrade, tradeScan, changeAt, targetPrice, stopLossPrice,
      dataOv, mkCandle, abs]

/-- C9 counterexample: on closes [100, 98, 102] with threshold 0.01,
the change at index 1 is −2%, so the code flags a long, not the short
the claim states: the detector does not return `some true` (short). -/
theorem claim9_counterexample :
    ¬ detectSignal (1/100) 100 98 = some true := by
  norm_num [detectSignal, abs]

/-- C9 amended: on the 3-candle series with closes [100, 98, 102] and
threshold 0.01, detection at index 1 flags a **Long** signal (change
−2%) with entry price 98, target price 98·(1 + 0.01) = 98.98 and stop
price 98·(1 − 0.02) = 96.04. -/
theorem claim9_scenario1_long :
    detectSignal (1/100) 100 98 = some false
      ∧ changeAt data9 1 = -(1/50)
      ∧ (data9.getD 1 default).close = 98
      ∧ targetPrice false 98 |changeAt data9 1| = 9898/100
      ∧ stopLossPrice false 98 |changeAt data9 1| = 9604/100 := by
  refine ⟨?_, ?_, ?_, ?_, ?_⟩
  · norm_num [detectSignal, abs]
  · norm_num [changeAt, data9, mkCandle]
  · norm_num [data9, mkCandle]
  · norm_num [targetPrice, changeAt, data9, mkCandle, abs]
  · norm_num [stopLossPrice, changeAt, data9, mkCandle, abs]

end SpikeBacktest
